import Mathlib

/-!
Verification development for the static download-portal repository
(catalog rendering in assets/main.js, entry lookup and viewer in
viewer.js, and the client-side .s2p → .dat converter).

The JavaScript sources are embedded shallowly:

* JS strings are Lean `String`s, manipulated through their `List Char`
  contents.  Only the ASCII fragment of Unicode case mapping and of the
  whitespace class `\s` is modelled (the repository's data and all
  inputs exercised by the claims are ASCII); `String.prototype.normalize`
  is modelled below where it is used.
* JS numbers are modelled exactly (no 64-bit float rounding): a parsed
  numeric token is either `NaN`, `±Infinity`, or an exact rational.
* JS exceptions are modelled with `Except`: `Except.error ()` is a
  thrown exception, `Except.ok` a normal return.
* DOM and UI effects are modelled as the pure values the handlers
  compute (status strings, generated link contents, navigation target).
-/

/-- Decidable equality for `Except`, needed to evaluate the matcher model
on concrete inputs. -/
instance {ε α : Type} [DecidableEq ε] [DecidableEq α] : DecidableEq (Except ε α) := fun x y =>
  match x, y with
  | .error a, .error b =>
    if h : a = b then isTrue (by rw [h]) else isFalse (fun k => h (by injection k))
  | .error _, .ok _ => isFalse (fun k => by injection k)
  | .ok _, .error _ => isFalse (fun k => by injection k)
  | .ok a, .ok b =>
    if h : a = b then isTrue (by rw [h]) else isFalse (fun k => h (by injection k))

/-- Evaluation of `Char.ofNat` below the surrogate range. -/
theorem charOfNat_toNat (n : Nat) (h : n < 55296) : (Char.ofNat n).toNat = n := by
  have hv : n.isValidChar := Or.inl h
  simp only [Char.ofNat, dif_pos hv]
  simp [Char.ofNatAux, Char.toNat, UInt32.toNat, UInt32.ofNatCore]

/-- ASCII lower-casing of one character, the fragment of
`String.prototype.toLowerCase` exercised by this repository. -/
def lowerChar (c : Char) : Char :=
  if 65 ≤ c.toNat ∧ c.toNat ≤ 90 then Char.ofNat (c.toNat + 32) else c

/-- Code points of the JS whitespace class `\s` restricted to ASCII. -/
def wsCode (n : Nat) : Bool :=
  n == 32 || n == 9 || n == 10 || n == 13 || n == 11 || n == 12

/-- Whitespace test used by `trim`, `split(/\s+/)` and `replace(/\s+/g,' ')`. -/
def jsWs (c : Char) : Bool := wsCode c.toNat

theorem wsCode_false_of_ge (n : Nat) (h : 33 ≤ n) : wsCode n = false := by
  simp only [wsCode, Bool.or_eq_false_iff, beq_eq_false_iff_ne, ne_eq]
  omega

theorem lowerChar_idem (c : Char) : lowerChar (lowerChar c) = lowerChar c := by
  unfold lowerChar
  split
  · next h =>
    have h2 : (Char.ofNat (c.toNat + 32)).toNat = c.toNat + 32 :=
      charOfNat_toNat _ (by omega)
    rw [if_neg (by omega)]
  · rfl

theorem jsWs_lowerChar (c : Char) : jsWs (lowerChar c) = jsWs c := by
  unfold lowerChar
  split
  · next h =>
    have h2 : (Char.ofNat (c.toNat + 32)).toNat = c.toNat + 32 :=
      charOfNat_toNat _ (by omega)
    simp only [jsWs, h2]
    rw [wsCode_false_of_ge _ (by omega), wsCode_false_of_ge _ (by omega)]
  · rfl

theorem lowerChar_space : lowerChar ' ' = ' ' := by decide

/-- Drop trailing characters satisfying `jsWs` (the right half of
`String.prototype.trim`). -/
def dropTrailWs : List Char → List Char
  | [] => []
  | c :: t =>
    match dropTrailWs t with
    | [] => if jsWs c then [] else [c]
    | r => c :: r

/-- The character list behind `String.prototype.trim` (ASCII fragment). -/
def trimWsL (l : List Char) : List Char := (dropTrailWs l).dropWhile jsWs

/-- Worker for `replace(/\s+/g, ' ')`: the flag records whether the
previous character was part of a whitespace run already replaced. -/
def collapseWsAux : Bool → List Char → List Char
  | _, [] => []
  | prevWs, c :: t =>
    if jsWs c then
      if prevWs then collapseWsAux true t
      else ' ' :: collapseWsAux true t
    else c :: collapseWsAux false t

/-- The character list behind `replace(/\s+/g, ' ')`. -/
def collapseWs (l : List Char) : List Char := collapseWsAux false l

/-- Split on runs of whitespace, dropping empty tokens; on a trimmed
non-empty line this is exactly `line.split(/\s+/)`. -/
def splitWsAux : List Char → List Char → List (List Char)
  | acc, [] => if acc.isEmpty then [] else [acc.reverse]
  | acc, c :: t =>
    if jsWs c then
      if acc.isEmpty then splitWsAux [] t else acc.reverse :: splitWsAux [] t
    else splitWsAux (c :: acc) t

/-- Tokens of a line, as `split(/\s+/)` on a trimmed line produces them. -/
def splitWsL (l : List Char) : List (List Char) := splitWsAux [] l

/-- Split at `\r\n` or `\n`, the converter's `text.split(/\r?\n/)`. -/
def splitLinesAux : List Char → List Char → List (List Char)
  | acc, [] => [acc.reverse]
  | acc, '\r' :: '\n' :: t => acc.reverse :: splitLinesAux [] t
  | acc, '\n' :: t => acc.reverse :: splitLinesAux [] t
  | acc, c :: t => splitLinesAux (c :: acc) t

/-- Substring containment on character lists (`String.prototype.includes`). -/
def strIncludesL (sub : List Char) : List Char → Bool
  | [] => sub.isEmpty
  | c :: t => sub.isPrefixOf (c :: t) || strIncludesL sub t

/-- String-level wrappers. `hay.includes(needle)`. -/
def jsIncludes (hay needle : String) : Bool := strIncludesL needle.data hay.data

/-- JS `s.startsWith(pre)` via list prefixes. -/
def jsStartsWith (s pre : String) : Bool := pre.data.isPrefixOf s.data

/-- JS `s.trim()` (ASCII whitespace fragment). -/
def jsTrim (s : String) : String := ⟨trimWsL s.data⟩

/-- JS `s.toLowerCase()` (ASCII fragment). -/
def toLowerStr (s : String) : String := ⟨s.data.map lowerChar⟩

/-- One record of the static `window.DOWNLOADS` table.  A field that is
absent or `undefined` on the JS side is the empty string here, which is
exactly how the source reads the fields (`d.title || ''`, truthiness
tests, `norm` of a missing field). -/
structure DownloadRecord where
  title : String := ""
  filename : String := ""
  description : String := ""
  category : String := ""
  version : String := ""
  date : String := ""
  versionweb : String := ""
  liens : String := ""
  code_py : String := ""
  code_yaml : String := ""
  code_path : String := ""
  yaml_path : String := ""
  size_bytes : Option ℚ := none
deriving DecidableEq

example : jsTrim "  a b  " = "a b" := by decide
example : collapseWs "a   b".data = "a b".data := by decide
example : splitWsL "ab  cd e".data = ["ab".data, "cd".data, "e".data] := by decide
example : splitLinesAux [] "a\r\nb\nc".data = ["a".data, "b".data, "c".data] := by decide
example : jsIncludes "hello" "ell" = true := by decide
example : jsIncludes "hello" "" = true := by decide
example : jsStartsWith "#x" "#" = true := by decide

/-- Modelled: `String.prototype.normalize('NFKC')` from viewer.js.  Lean has
no Unicode normalization tables; NFKC is the identity on strings already in
normal form, and in particular on the ASCII data this repository serves, so
it is modelled as the identity. -/
def nfkcModel (s : String) : String := s

/-- The character-list body of the viewer's `norm`: lowercase, trim, then
collapse internal whitespace runs to single spaces. -/
def normL (l : List Char) : List Char := collapseWs (trimWsL (l.map lowerChar))

/-- The viewer's `norm` helper:
`if(!s) return ''; return s.toString().normalize('NFKC').toLowerCase().trim().replace(/\s+/g,' ')`. -/
def norm (s : String) : String :=
  if s = "" then "" else ⟨normL (nfkcModel s).data⟩

example : norm "  Abc   DEF " = "abc def" := by decide
example : norm "   " = "" := by decide

theorem mem_dropTrailWs {c : Char} : ∀ {l : List Char}, c ∈ dropTrailWs l → c ∈ l := by
  intro l
  induction l with
  | nil => intro h; exact absurd h (by simp [dropTrailWs])
  | cons a t ih =>
    intro h
    simp only [dropTrailWs] at h
    rcases hr : dropTrailWs t with _ | ⟨b, r⟩
    · rw [hr] at h
      by_cases hw : jsWs a
      · simp [hw] at h
      · simp [hw] at h; simp [h]
    · rw [hr] at h
      rcases List.mem_cons.mp h with h1 | h2
      · simp [h1]
      · exact List.mem_cons_of_mem _ (ih (hr ▸ h2))

theorem mem_collapseWsAux {c : Char} :
    ∀ {l : List Char} {b : Bool}, c ∈ collapseWsAux b l → c = ' ' ∨ c ∈ l := by
  intro l
  induction l with
  | nil => intro b h; exact absurd h (by simp [collapseWsAux])
  | cons a t ih =>
    intro b h
    simp only [collapseWsAux] at h
    by_cases hw : jsWs a
    · simp only [hw, if_true] at h
      cases b with
      | true =>
        rw [if_pos rfl] at h
        rcases ih h with h1 | h2
        · exact Or.inl h1
        · exact Or.inr (List.mem_cons_of_mem _ h2)
      | false =>
        rw [if_neg Bool.false_ne_true] at h
        rcases List.mem_cons.mp h with h1 | h2
        · exact Or.inl h1
        · rcases ih h2 with h3 | h4
          · exact Or.inl h3
          · exact Or.inr (List.mem_cons_of_mem _ h4)
    · simp only [hw, if_false] at h
      rcases List.mem_cons.mp h with h1 | h2
      · exact Or.inr (h1 ▸ List.mem_cons_self _ _)
      · rcases ih h2 with h3 | h4
        · exact Or.inl h3
        · exact Or.inr (List.mem_cons_of_mem _ h4)

theorem mapLowerFix : ∀ {l : List Char}, (∀ c ∈ l, lowerChar c = c) → l.map lowerChar = l := by
  intro l
  induction l with
  | nil => intro _; rfl
  | cons a t ih =>
    intro h
    simp only [List.map_cons, h a (List.mem_cons_self _ _),
      ih (fun c hc => h c (List.mem_cons_of_mem _ hc))]

theorem head_dropWhileWs : ∀ {l : List Char} {c : Char},
    (l.dropWhile jsWs).head? = some c → jsWs c = false := by
  intro l
  induction l with
  | nil => intro c h; simp [List.dropWhile] at h
  | cons a t ih =>
    intro c h
    by_cases hw : jsWs a
    · rw [List.dropWhile_cons_of_pos hw] at h; exact ih h
    · rw [List.dropWhile_cons_of_neg hw] at h
      simp only [List.head?_cons, Option.some.injEq] at h
      rw [← h]; exact Bool.eq_false_iff.mpr hw

theorem getLast_dropTrailWs : ∀ {l : List Char} {c : Char},
    (dropTrailWs l).getLast? = some c → jsWs c = false := by
  intro l
  induction l with
  | nil => intro c h; simp [dropTrailWs] at h
  | cons a t ih =>
    intro c h
    simp only [dropTrailWs] at h
    rcases hr : dropTrailWs t with _ | ⟨b, r⟩
    · rw [hr] at h
      by_cases hw : jsWs a
      · rw [if_pos hw] at h; simp at h
      · rw [if_neg hw] at h
        simp only [List.getLast?_singleton, Option.some.injEq] at h
        rw [← h]; exact Bool.eq_false_iff.mpr hw
    · rw [hr] at h
      rw [List.getLast?_cons_cons] at h
      exact ih (hr ▸ h)

theorem getLast_dropWhileWs : ∀ {l : List Char},
    l.dropWhile jsWs ≠ [] → (l.dropWhile jsWs).getLast? = l.getLast? := by
  intro l
  induction l with
  | nil => intro h; simp [List.dropWhile] at h
  | cons a t ih =>
    intro h
    by_cases hw : jsWs a
    · rw [List.dropWhile_cons_of_pos hw] at h ⊢
      have ht : t ≠ [] := by
        intro k; rw [k] at h; simp [List.dropWhile] at h
      rcases t with _ | ⟨y, s⟩
      · exact absurd rfl ht
      · rw [List.getLast?_cons_cons]
        exact ih h
    · rw [List.dropWhile_cons_of_neg hw]

theorem head_collapseWs_true : ∀ {l : List Char} {c : Char},
    (collapseWsAux true l).head? = some c → jsWs c = false := by
  intro l
  induction l with
  | nil => intro c h; simp [collapseWsAux] at h
  | cons a t ih =>
    intro c h
    by_cases hw : jsWs a
    · have he : collapseWsAux true (a :: t) = collapseWsAux true t := by
        simp [collapseWsAux, hw]
      rw [he] at h; exact ih h
    · have he : collapseWsAux true (a :: t) = a :: collapseWsAux false t := by
        simp [collapseWsAux, hw]
      rw [he] at h
      simp only [List.head?_cons, Option.some.injEq] at h
      rw [← h]; exact Bool.eq_false_iff.mpr hw

theorem head_collapseWs {l : List Char} {c : Char}
    (h : l.head? = some c) (hw : jsWs c = false) :
    (collapseWs l).head? = some c := by
  rcases l with _ | ⟨a, t⟩
  · simp at h
  · simp only [List.head?_cons, Option.some.injEq] at h
    have hwa : jsWs a = false := by rw [h]; exact hw
    have he : collapseWs (a :: t) = a :: collapseWsAux false t := by
      simp [collapseWs, collapseWsAux, hwa]
    rw [he]
    simp [h]

theorem getLast_collapseWsAux : ∀ {l : List Char} {b : Bool} {c : Char},
    l.getLast? = some c → jsWs c = false →
    (collapseWsAux b l).getLast? = some c := by
  intro l
  induction l with
  | nil => intro b c h _; simp at h
  | cons a t ih =>
    intro b c h hw
    rcases t with _ | ⟨d, r⟩
    · simp only [List.getLast?_singleton, Option.some.injEq] at h
      have hwa : jsWs a = false := by rw [h]; exact hw
      have he : collapseWsAux b [a] = [a] := by
        simp [collapseWsAux, hwa]
      rw [he, List.getLast?_singleton, h]
    · have ht : (d :: r).getLast? = some c := by
        rw [List.getLast?_cons_cons] at h; exact h
      have hrec : ∀ b2 : Bool, (collapseWsAux b2 (d :: r)).getLast? = some c :=
        fun b2 => ih ht hw
      have hne : ∀ b2 : Bool, collapseWsAux b2 (d :: r) ≠ [] := by
        intro b2 k
        have h2 := hrec b2
        rw [k] at h2; simp at h2
    -- one unfolding step of the worker, by cases on the head character
      by_cases hwa : jsWs a
      · cases b with
        | true =>
          have he : collapseWsAux true (a :: d :: r) = collapseWsAux true (d :: r) := by
            simp [collapseWsAux, hwa]
          rw [he]; exact hrec true
        | false =>
          have he : collapseWsAux false (a :: d :: r) = ' ' :: collapseWsAux true (d :: r) := by
            simp [collapseWsAux, hwa]
          rw [he]
          rcases hx : collapseWsAux true (d :: r) with _ | ⟨y, s⟩
          · exact absurd hx (hne true)
          · rw [List.getLast?_cons_cons, ← hx]; exact hrec true
      · have he : collapseWsAux b (a :: d :: r) = a :: collapseWsAux false (d :: r) := by
          simp [collapseWsAux, hwa]
        rw [he]
        rcases hx : collapseWsAux false (d :: r) with _ | ⟨y, s⟩
        · exact absurd hx (hne false)
        · rw [List.getLast?_cons_cons, ← hx]; exact hrec false

/-- Invariant of collapsed text: every whitespace character is a single
space and no two whitespace characters are adjacent. -/
def noWsIssue : List Char → Bool
  | [] => true
  | [c] => !jsWs c || c == ' '
  | c :: d :: t => (!jsWs c || (c == ' ' && !jsWs d)) && noWsIssue (d :: t)

theorem noWsIssue_tail {c : Char} {t : List Char}
    (h : noWsIssue (c :: t) = true) : noWsIssue t = true := by
  rcases t with _ | ⟨d, r⟩
  · rfl
  · simp only [noWsIssue, Bool.and_eq_true] at h
    exact h.2

theorem noWsIssue_collapseWsAux : ∀ (l : List Char) (b : Bool),
    noWsIssue (collapseWsAux b l) = true := by
  intro l
  induction l with
  | nil => intro b; rfl
  | cons a t ih =>
    intro b
    by_cases hw : jsWs a
    · cases b with
      | true =>
        have he : collapseWsAux true (a :: t) = collapseWsAux true t := by
          simp [collapseWsAux, hw]
        rw [he]; exact ih true
      | false =>
        have he : collapseWsAux false (a :: t) = ' ' :: collapseWsAux true t := by
          simp [collapseWsAux, hw]
        rw [he]
        rcases hx : collapseWsAux true t with _ | ⟨y, s⟩
        · rfl
        · have hy : jsWs y = false := head_collapseWs_true (by rw [hx]; rfl)
          have hn : noWsIssue (y :: s) = true := by rw [← hx]; exact ih true
          simp [noWsIssue, hy, hn]
    · have he : collapseWsAux b (a :: t) = a :: collapseWsAux false t := by
        simp [collapseWsAux, hw]
      rw [he]
      rcases hx : collapseWsAux false t with _ | ⟨y, s⟩
      · simp [noWsIssue, hw]
      · have hn : noWsIssue (y :: s) = true := by rw [← hx]; exact ih false
        simp [noWsIssue, hw, hn]

theorem collapseWsAux_fix : ∀ (l : List Char) (b : Bool),
    noWsIssue l = true →
    (b = true → ∀ c, l.head? = some c → jsWs c = false) →
    collapseWsAux b l = l := by
  intro l
  induction l with
  | nil => intro b _ _; rfl
  | cons a t ih =>
    intro b hn hh
    by_cases hw : jsWs a
    · cases b with
      | true => exact absurd (hh rfl a rfl) (by simp [hw])
      | false =>
        have ha : a = ' ' ∧ (∀ d s, t = d :: s → jsWs d = false) := by
          rcases t with _ | ⟨d, s⟩
          · refine ⟨?_, by intro d s k; cases k⟩
            simp only [noWsIssue, hw, Bool.not_true, Bool.false_or] at hn
            simpa using hn
          · simp only [noWsIssue, hw, Bool.not_true, Bool.false_or, Bool.and_eq_true,
              beq_iff_eq, Bool.not_eq_true'] at hn
            exact ⟨hn.1.1, by intro d2 s2 k; injection k with k1 k2; rw [← k1]; exact hn.1.2⟩
        have he : collapseWsAux false (a :: t) = ' ' :: collapseWsAux true t := by
          simp [collapseWsAux, hw]
        rw [he, ha.1]
        have : collapseWsAux true t = t := by
          apply ih true (noWsIssue_tail hn)
          intro _ c hc
          rcases t with _ | ⟨d, s⟩
          · cases hc
          · simp only [List.head?_cons, Option.some.injEq] at hc
            rw [← hc]; exact ha.2 d s rfl
        rw [this]
    · have he : collapseWsAux b (a :: t) = a :: collapseWsAux false t := by
        simp [collapseWsAux, hw]
      rw [he, ih false (noWsIssue_tail hn) (by intro k; cases k)]

theorem chars_collapse_low_fixed {l : List Char}
    (hl : ∀ c ∈ l, lowerChar c = c) :
    ∀ c ∈ collapseWs l, lowerChar c = c := by
  intro c hc
  rcases mem_collapseWsAux hc with h1 | h2
  · rw [h1]; exact lowerChar_space
  · exact hl c h2

theorem chars_trim_low_fixed {l : List Char}
    (hl : ∀ c ∈ l, lowerChar c = c) :
    ∀ c ∈ trimWsL l, lowerChar c = c := by
  intro c hc
  exact hl c (mem_dropTrailWs ((List.dropWhile_sublist jsWs).subset hc))

theorem dropTrailWs_fix : ∀ {l : List Char},
    (∀ c, l.getLast? = some c → jsWs c = false) → dropTrailWs l = l := by
  intro l
  induction l with
  | nil => intro _; rfl
  | cons a t ih =>
    intro h
    rcases t with _ | ⟨d, r⟩
    · have ha : jsWs a = false := h a (by rfl)
      simp [dropTrailWs, ha]
    · have ht : dropTrailWs (d :: r) = d :: r := by
        apply ih
        intro c hc
        exact h c (by rw [List.getLast?_cons_cons]; exact hc)
      show (match dropTrailWs (d :: r) with
            | [] => if jsWs a = true then [] else [a]
            | r => a :: r) = a :: d :: r
      rw [ht]

theorem dropWhileWs_fix : ∀ {l : List Char},
    (∀ c, l.head? = some c → jsWs c = false) → l.dropWhile jsWs = l := by
  intro l
  rcases l with _ | ⟨a, t⟩
  · intro _; rfl
  · intro h
    exact List.dropWhile_cons_of_neg (by simp [h a rfl])

theorem normL_idem (l : List Char) : normL (normL l) = normL l := by
  have hlowu : ∀ c ∈ l.map lowerChar, lowerChar c = c := by
    intro c hc
    rcases List.mem_map.mp hc with ⟨d, _, hd⟩
    rw [← hd]; exact lowerChar_idem d
  have hlowt : ∀ c ∈ normL l, lowerChar c = c :=
    chars_collapse_low_fixed (chars_trim_low_fixed hlowu)
  have hmap : (normL l).map lowerChar = normL l := mapLowerFix hlowt
  have hhead : ∀ c, (normL l).head? = some c → jsWs c = false := by
    intro c hc
    rcases hy : trimWsL (l.map lowerChar) with _ | ⟨y, ys⟩
    · have hnil : normL l = [] := by unfold normL; rw [hy]; rfl
      rw [hnil] at hc; cases hc
    · have hyw : jsWs y = false := by
        apply head_dropWhileWs (l := dropTrailWs (l.map lowerChar))
        show (trimWsL (l.map lowerChar)).head? = some y
        rw [hy]; rfl
      have hh : (normL l).head? = some y := by
        unfold normL
        exact head_collapseWs (by rw [hy]; rfl) hyw
      rw [hc] at hh
      injection hh with h1
      rw [h1]; exact hyw
  have hlast : ∀ c, (normL l).getLast? = some c → jsWs c = false := by
    intro c hc
    rcases hy : trimWsL (l.map lowerChar) with _ | ⟨y, ys⟩
    · have hnil : normL l = [] := by unfold normL; rw [hy]; rfl
      rw [hnil] at hc; cases hc
    · have hne : trimWsL (l.map lowerChar) ≠ [] := by rw [hy]; simp
      have hgl : (trimWsL (l.map lowerChar)).getLast? = (dropTrailWs (l.map lowerChar)).getLast? :=
        getLast_dropWhileWs hne
      rcases hz : (trimWsL (l.map lowerChar)).getLast? with _ | z
      · rw [hy] at hz
        simp [List.getLast?_cons] at hz
      · have hzw : jsWs z = false := getLast_dropTrailWs (by rw [← hgl]; exact hz)
        have hgt : (normL l).getLast? = some z := by
          unfold normL
          exact getLast_collapseWsAux hz hzw
        rw [hc] at hgt
        injection hgt with h1
        rw [h1]; exact hzw
  show collapseWs (trimWsL ((normL l).map lowerChar)) = normL l
  rw [hmap]
  have htr : trimWsL (normL l) = normL l := by
    show (dropTrailWs (normL l)).dropWhile jsWs = normL l
    rw [dropTrailWs_fix hlast]
    exact dropWhileWs_fix hhead
  rw [htr]
  exact collapseWsAux_fix (normL l) false
    (noWsIssue_collapseWsAux (trimWsL (l.map lowerChar)) false)
    (by intro k; cases k)

/-- A JavaScript number as the converter observes it: `NaN`, an infinity,
or an exact finite value.  Finite values are kept as exact rationals; the
64-bit float rounding of the runtime is not modelled (no claim depends on
it). -/
inductive JNum where
  | nan
  | posInf
  | negInf
  | fin (q : ℚ)
deriving DecidableEq

def decDigit (c : Char) : Bool := 48 ≤ c.toNat && c.toNat ≤ 57

/-- Value of a string of decimal digits. -/
def digitsToNat (cs : List Char) : Nat := cs.foldl (fun a c => a * 10 + (c.toNat - 48)) 0

def hexDigitVal (c : Char) : Option Nat :=
  if 48 ≤ c.toNat ∧ c.toNat ≤ 57 then some (c.toNat - 48)
  else if 65 ≤ c.toNat ∧ c.toNat ≤ 70 then some (c.toNat - 55)
  else if 97 ≤ c.toNat ∧ c.toNat ≤ 102 then some (c.toNat - 87)
  else none

def octDigitVal (c : Char) : Option Nat :=
  if 48 ≤ c.toNat ∧ c.toNat ≤ 55 then some (c.toNat - 48) else none

def binDigitVal (c : Char) : Option Nat :=
  if 48 ≤ c.toNat ∧ c.toNat ≤ 49 then some (c.toNat - 48) else none

def radixValAux (digit : Char → Option Nat) (base : Nat) : Nat → List Char → Option Nat
  | acc, [] => some acc
  | acc, c :: t =>
    match digit c with
    | some d => radixValAux digit base (acc * base + d) t
    | none => none

/-- Value of a non-empty all-digit string in the given base, `none` if any
character is not a digit of that base. -/
def radixVal (digit : Char → Option Nat) (base : Nat) (cs : List Char) : Option Nat :=
  match cs with
  | [] => none
  | _ => radixValAux digit base 0 cs

/-- The exact value `i.f × 10^e` of a decimal literal with integer digits
of value `i`, fraction digits of value `f` and length `fLen`, and exponent
`e`. -/
def jsDecValue (i f fLen : Nat) (e : Int) : ℚ :=
  let mant : Int := (i * 10 ^ fLen + f : Nat)
  match e with
  | Int.ofNat k => mkRat (mant * 10 ^ k) (10 ^ fLen)
  | Int.negSucc k => mkRat mant (10 ^ fLen * 10 ^ (k + 1))

/-- Exponent part of a decimal literal (after the `e`/`E`): optional sign
and at least one digit; returns the exponent and the remaining input. -/
def parseExpPart (r : List Char) : Option (Int × List Char) :=
  let sr : Bool × List Char :=
    match r with
    | '+' :: r2 => (false, r2)
    | '-' :: r2 => (true, r2)
    | _ => (false, r)
  let eD := sr.2.takeWhile decDigit
  if eD.isEmpty then none
  else some ((if sr.1 then -(digitsToNat eD : Int) else (digitsToNat eD : Int)),
             sr.2.dropWhile decDigit)

/-- Unsigned decimal literal of ECMAScript `StringToNumber`:
`digits [. digits] [e|E [sign] digits]` with at least one mantissa digit,
consuming the whole input. -/
def parseDecCore (cs : List Char) : Option ℚ :=
  let intD := cs.takeWhile decDigit
  let rest1 := cs.dropWhile decDigit
  let fr : List Char × List Char :=
    match rest1 with
    | '.' :: r => (r.takeWhile decDigit, r.dropWhile decDigit)
    | _ => ([], rest1)
  if intD.isEmpty && fr.1.isEmpty then none
  else
    let ex : Option (Int × List Char) :=
      match fr.2 with
      | 'e' :: r => parseExpPart r
      | 'E' :: r => parseExpPart r
      | _ => some (0, fr.2)
    match ex with
    | none => none
    | some (e, rest3) =>
      if rest3.isEmpty then some (jsDecValue (digitsToNat intD) (digitsToNat fr.1) fr.1.length e)
      else none

def jsNumSigned (neg : Bool) (l : List Char) : JNum :=
  if l = "Infinity".data then (if neg then JNum.negInf else JNum.posInf)
  else
    match parseDecCore l with
    | some q => JNum.fin (if neg then -q else q)
    | none => JNum.nan

def radixNum (digit : Char → Option Nat) (base : Nat) (r : List Char) : JNum :=
  match radixVal digit base r with
  | some n => JNum.fin (n : ℚ)
  | none => JNum.nan

/-- ECMAScript `Number(string)` on a whitespace-free token (the converter
only applies it to tokens produced by `split(/\s+/)` of a trimmed line):
empty → 0, `[+-]?Infinity`, `0x/0o/0b` radix literals, or a decimal
literal; anything else is `NaN`.  Values are exact rationals, not rounded
to binary64. -/
def jsNumber (s : String) : JNum :=
  match s.data with
  | [] => JNum.fin 0
  | '0' :: 'x' :: r => radixNum hexDigitVal 16 r
  | '0' :: 'X' :: r => radixNum hexDigitVal 16 r
  | '0' :: 'o' :: r => radixNum octDigitVal 8 r
  | '0' :: 'O' :: r => radixNum octDigitVal 8 r
  | '0' :: 'b' :: r => radixNum binDigitVal 2 r
  | '0' :: 'B' :: r => radixNum binDigitVal 2 r
  | '+' :: r => jsNumSigned false r
  | '-' :: r => jsNumSigned true r
  | cs => jsNumSigned false cs

example : jsNumber "1000" = JNum.fin 1000 := by decide
example : jsNumber "0" = JNum.fin 0 := by decide
example : jsNumber "-2.5" = JNum.fin (mkRat (-5) 2) := by decide
example : jsNumber "1e3" = JNum.fin 1000 := by decide
example : jsNumber "2.5e-1" = JNum.fin (mkRat 1 4) := by decide
example : jsNumber ".5" = JNum.fin (mkRat 1 2) := by decide
example : jsNumber "abc" = JNum.nan := by decide
example : jsNumber "1x" = JNum.nan := by decide
example : jsNumber "Infinity" = JNum.posInf := by decide
example : jsNumber "-Infinity" = JNum.negInf := by decide
example : jsNumber "0x1A" = JNum.fin 26 := by decide

/-- The value the converter pushes for one S-parameter pair: the result of
`20*Math.log10(Math.hypot(re,im))`.  `negInf` is the exact result when the
magnitude is zero (`log10(0)` is `-Infinity` in JS, no exception);
`finiteMag re im` stands for the finite irrational value
`20·log10(√(re²+im²))` of a nonzero finite magnitude, kept symbolically
because it has no exact rational embedding. -/
inductive DbVal where
  | nan
  | negInf
  | posInf
  | finiteMag (re im : ℚ)
deriving DecidableEq

/-- `20*Math.log10(Math.hypot(re,im))` on the extended number domain:
`Math.hypot` returns `+Infinity` if either argument is infinite (even if
the other is `NaN`), `NaN` if an argument is `NaN`, else the Euclidean
norm; `log10` then maps `0 ↦ -Infinity`, `+Infinity ↦ +Infinity`,
`NaN ↦ NaN`, and multiplication by 20 preserves these. -/
def dbOf : JNum → JNum → DbVal
  | JNum.posInf, _ => DbVal.posInf
  | JNum.negInf, _ => DbVal.posInf
  | _, JNum.posInf => DbVal.posInf
  | _, JNum.negInf => DbVal.posInf
  | JNum.nan, _ => DbVal.nan
  | _, JNum.nan => DbVal.nan
  | JNum.fin a, JNum.fin b => if a = 0 ∧ b = 0 then DbVal.negInf else DbVal.finiteMag a b

def jnIsNaN : JNum → Bool
  | JNum.nan => true
  | _ => false

/-- `Math.round`: floor of `x + 1/2` for finite values, fixed on
non-finite values.  For the exact value `num/den` (with `den > 0`),
`⌊x + 1/2⌋` is the floor division `(2·num + den) / (2·den)`. -/
def jsRound : JNum → JNum
  | JNum.fin q => JNum.fin ((Int.fdiv (2 * q.num + (q.den : Int)) (2 * (q.den : Int)) : Int) : ℚ)
  | x => x

/-- Template-literal rendering of a rounded frequency.  Exact for the
integers `Math.round` produces (decimal notation below 10^21 magnitude is
what the repository's data uses); a non-integral rational cannot arise
from `jsRound`, so that case is left unrendered. -/
def jnToString : JNum → Option String
  | JNum.nan => some "NaN"
  | JNum.posInf => some "Infinity"
  | JNum.negInf => some "-Infinity"
  | JNum.fin q => if q.den = 1 then some (toString q.num) else none

/-- `Number.prototype.toFixed(2)`: per ECMAScript, a non-finite receiver
renders as its `toString` (`"-Infinity"`, `"Infinity"`, `"NaN"`); the
rendering of a finite value depends on the binary64 value of the
irrational logarithm and has no exact embedding, so it is left `none`. -/
def dbToFixed2 : DbVal → Option String
  | DbVal.nan => some "NaN"
  | DbVal.negInf => some "-Infinity"
  | DbVal.posInf => some "Infinity"
  | DbVal.finiteMag _ _ => none

/-- One data row of a generated `.dat` file as the template literal
renders it. -/
def rowRendered (f : JNum) (v : DbVal) : Option String :=
  match jnToString (jsRound f), dbToFixed2 v with
  | some a, some b => some (a ++ "\t" ++ b)
  | _, _ => none

/-- Result record of the converter's `parseS2P`. -/
structure S2PResult where
  freqs : List JNum
  s11 : List DbVal
  s21 : List DbVal
deriving DecidableEq

def splitLinesStr (s : String) : List String := (splitLinesAux [] s.data).map (fun l => ⟨l⟩)

def splitWsStr (s : String) : List String := (splitWsL s.data).map (fun l => ⟨l⟩)

/-- The token phase of one `parseS2P` iteration: at least five tokens,
`Number` applied to the first five, the `[…].some(isNaN)` skip, and the
three pushed values. -/
def processTokens (p : List String) : Option (JNum × DbVal × DbVal) :=
  if p.length < 5 then none
  else
    match p with
    | t0 :: t1 :: t2 :: t3 :: t4 :: _ =>
      let f := jsNumber t0
      let s11re := jsNumber t1
      let s11im := jsNumber t2
      let s21re := jsNumber t3
      let s21im := jsNumber t4
      if [f, s11re, s11im, s21re, s21im].any jnIsNaN then none
      else some (f, dbOf s11re s11im, dbOf s21re s21im)
    | _ => none

/-- The guard phase of one `parseS2P` iteration, on the already-trimmed
line: empty and `!`/`#` comment lines are skipped. -/
def processTrimmed (line : String) : Option (JNum × DbVal × DbVal) :=
  if line == "" || jsStartsWith line "!" || jsStartsWith line "#" then none
  else processTokens (splitWsStr line)

/-- One iteration of the `parseS2P` loop: `none` means the line is skipped
(`continue`), `some` is the triple pushed onto the three arrays. -/
def processLine (rawLine : String) : Option (JNum × DbVal × DbVal) :=
  processTrimmed (jsTrim rawLine)

/-- The loop of `parseS2P` over an explicit list of lines. -/
def parseLines (ls : List String) : S2PResult :=
  let rows := ls.filterMap processLine
  ⟨rows.map (fun r => r.1), rows.map (fun r => r.2.1), rows.map (fun r => r.2.2)⟩

/-- `parseS2P(text)`: split on `/\r?\n/`, then the skipping loop. -/
def parseS2P (text : String) : S2PResult := parseLines (splitLinesStr text)

/-- A generated `.dat` file: `buildDat` emits the header line and one row
per point; the rows are kept as (frequency, dB value) pairs whose rendered
form is `rowRendered`. -/
structure DatFile where
  header : String
  rows : List (JNum × DbVal)
deriving DecidableEq

def buildDat (freqs : List JNum) (vals : List DbVal) (label : String) : DatFile :=
  ⟨"# Frequency(Hz)\t" ++ label, freqs.zip vals⟩

/-- One generated download link (`makeDownload`): file name and content. -/
structure DatLink where
  name : String
  file : DatFile
deriving DecidableEq

/-- UI outcome of the convert-button handler: status text, generated
links, and whether the links container is shown. -/
structure ConvertState where
  status : String
  links : List DatLink
  linksVisible : Bool
deriving DecidableEq

/-- `f.name.replace(/\.s2p$/i, '')`. -/
def stripS2pSuffix (s : String) : String :=
  match s.data.reverse with
  | p :: two :: sc :: dot :: rest =>
    if lowerChar p = 'p' ∧ two = '2' ∧ lowerChar sc = 's' ∧ dot = '.'
    then ⟨rest.reverse⟩ else s
  | _ => s

/-- The convert-button click handler once a file with name `fname` and
text content `text` has been read: parse, report "no valid data" when no
row was produced, else build the two `.dat` links and report success. -/
def convertClick (fname text : String) : ConvertState :=
  let r := parseS2P text
  if r.freqs.length = 0 then
    { status := "Aucune donnée valide trouvée.", links := [], linksVisible := false }
  else
    let base := stripS2pSuffix fname
    { status := "Conversion OK — " ++ toString r.freqs.length ++ " points générés.",
      links := [⟨base ++ "_S11.dat", buildDat r.freqs r.s11 "S11(dB)"⟩,
                ⟨base ++ "_S21.dat", buildDat r.freqs r.s21 "S21(dB)"⟩],
      linksVisible := true }

/-- The handler's early exit when no file is selected. -/
def convertClickNoFile : ConvertState :=
  { status := "Choisis un fichier .s2p avant de convertir.", links := [], linksVisible := false }

example : processLine "# comment" = none := by decide
example : processLine "   " = none := by decide
example : processLine "1 2 3 4" = none := by decide
example : processLine "1 2 3 4 x" = none := by decide
example : processLine "1000 0 0 0 0" =
    some (JNum.fin 1000, DbVal.negInf, DbVal.negInf) := by decide
example : processLine "1000 1 0 2 3" =
    some (JNum.fin 1000, DbVal.finiteMag 1 0, DbVal.finiteMag 2 3) := by decide
example : stripS2pSuffix "a.S2P" = "a" := by decide
example : stripS2pSuffix "a.txt" = "a.txt" := by decide
example : (parseS2P "! hdr\n1000 0 0 0 0\nbad").s11 = [DbVal.negInf] := by decide

/-- Intermediate token of `decodeURIComponent`: a literal character or the
byte of one `%hh` escape. -/
inductive PctItem where
  | raw (c : Char)
  | byte (b : Nat)
deriving DecidableEq

/-- First phase of `decodeURIComponent`: each `%` must be followed by two
hex digits (else `URIError`, i.e. `none`); other characters pass through. -/
def pctTokens : List Char → Option (List PctItem)
  | [] => some []
  | '%' :: h1 :: h2 :: rest =>
    match hexDigitVal h1, hexDigitVal h2 with
    | some a, some b => (pctTokens rest).map (fun ts => PctItem.byte (16 * a + b) :: ts)
    | _, _ => none
  | '%' :: _ => none
  | c :: rest => (pctTokens rest).map (fun ts => PctItem.raw c :: ts)

/-- Second phase of `decodeURIComponent`: escape bytes must form valid
UTF-8 scalar sequences (continuations present and in range, no overlong
encodings, no surrogates, max `U+10FFFF`); any violation is a `URIError`. -/
def pctDecodeItems : List PctItem → Option (List Char)
  | [] => some []
  | PctItem.raw c :: rest => (pctDecodeItems rest).map (fun l => c :: l)
  | PctItem.byte b :: rest =>
    if b < 128 then (pctDecodeItems rest).map (fun l => Char.ofNat b :: l)
    else if b < 194 then none
    else if b < 224 then
      match rest with
      | PctItem.byte b2 :: rest2 =>
        if 128 ≤ b2 ∧ b2 < 192 then
          (pctDecodeItems rest2).map (fun l => Char.ofNat ((b - 192) * 64 + (b2 - 128)) :: l)
        else none
      | _ => none
    else if b < 240 then
      match rest with
      | PctItem.byte b2 :: PctItem.byte b3 :: rest3 =>
        if (128 ≤ b2 ∧ b2 < 192) ∧ (128 ≤ b3 ∧ b3 < 192) ∧
           (b = 224 → 160 ≤ b2) ∧ (b = 237 → b2 < 160) then
          (pctDecodeItems rest3).map
            (fun l => Char.ofNat ((b - 224) * 4096 + (b2 - 128) * 64 + (b3 - 128)) :: l)
        else none
      | _ => none
    else if b ≤ 244 then
      match rest with
      | PctItem.byte b2 :: PctItem.byte b3 :: PctItem.byte b4 :: rest4 =>
        if (128 ≤ b2 ∧ b2 < 192) ∧ (128 ≤ b3 ∧ b3 < 192) ∧ (128 ≤ b4 ∧ b4 < 192) ∧
           (b = 240 → 144 ≤ b2) ∧ (b = 244 → b2 < 144) then
          (pctDecodeItems rest4).map
            (fun l => Char.ofNat
              ((b - 240) * 262144 + (b2 - 128) * 4096 + (b3 - 128) * 64 + (b4 - 128)) :: l)
        else none
      | _ => none
    else none

/-- `decodeURIComponent(s)` with `URIError` as `none`. -/
def jsDecodeURIComponent (s : String) : Option String :=
  match pctTokens s.data with
  | none => none
  | some items =>
    match pctDecodeItems items with
    | none => none
    | some l => some ⟨l⟩

example : jsDecodeURIComponent "abc" = some "abc" := by decide
example : jsDecodeURIComponent " " = some " " := by decide
example : jsDecodeURIComponent "%20" = some " " := by decide
example : jsDecodeURIComponent "a%C3%A9" = some "aé" := by decide
example : jsDecodeURIComponent "%" = none := by decide
example : jsDecodeURIComponent "%zz" = none := by decide
example : jsDecodeURIComponent "%C3" = none := by decide

/-- Title tier 1: exact equality of `d.title || ''` with the raw query. -/
def titleTier1 (l : List DownloadRecord) (pt : String) : Option DownloadRecord :=
  l.find? (fun d => d.title == pt)

/-- Title tier 2: exact equality with the decoded query; a decode failure
is caught by the source's `try … catch(e){}` and yields no match. -/
def titleTier2 (l : List DownloadRecord) (pt : String) : Option DownloadRecord :=
  match jsDecodeURIComponent pt with
  | some dec => l.find? (fun d => d.title == dec)
  | none => none

/-- Title tier 3: normalized equality. -/
def titleTier3 (l : List DownloadRecord) (pt : String) : Option DownloadRecord :=
  l.find? (fun d => norm d.title == norm pt)

/-- Title tier 4: normalized substring containment. -/
def titleTier4 (l : List DownloadRecord) (pt : String) : Option DownloadRecord :=
  l.find? (fun d => jsIncludes (norm d.title) (norm pt))

/-- The four title tiers in source order, stopping at the first success. -/
def titleSearch (l : List DownloadRecord) (pt : String) : Option DownloadRecord :=
  (titleTier1 l pt) <|> (titleTier2 l pt) <|> (titleTier3 l pt) <|> (titleTier4 l pt)

/-- `Array.prototype.find` with a predicate that may throw: the exception
of the first failing predicate call propagates. -/
def findThrow {α : Type} (p : α → Except Unit Bool) : List α → Except Unit (Option α)
  | [] => Except.ok none
  | a :: as =>
    match p a with
    | Except.error e => Except.error e
    | Except.ok true => Except.ok (some a)
    | Except.ok false => findThrow p as

/-- File tier 1:
`downloads.find(d => (d.filename||'') === p.file || (d.filename||'') === decodeURIComponent(p.file))`.
The decode is *not* wrapped in try/catch here; it is evaluated (and its
`URIError` propagates) as soon as the `||` reaches it, i.e. on the first
record whose filename is not exactly the raw query. -/
def fileTier1 (l : List DownloadRecord) (pf : String) : Except Unit (Option DownloadRecord) :=
  findThrow (fun d =>
    if d.filename == pf then Except.ok true
    else
      match jsDecodeURIComponent pf with
      | none => Except.error ()
      | some dec => Except.ok (d.filename == dec)) l

/-- File tier 2: normalized equality or containment on the filename. -/
def fileTier2 (l : List DownloadRecord) (pf : String) : Option DownloadRecord :=
  l.find? (fun d => norm d.filename == norm pf || jsIncludes (norm d.filename) (norm pf))

/-- File tier 3: containment against the auxiliary path fields, guarded by
their truthiness. -/
def fileTier3 (l : List DownloadRecord) (pf : String) : Option DownloadRecord :=
  l.find? (fun d =>
    (d.code_path != "" && jsIncludes (norm d.code_path) (norm pf)) ||
    (d.yaml_path != "" && jsIncludes (norm d.yaml_path) (norm pf)))

/-- The three file tiers in source order; an exception from tier 1
propagates. -/
def fileSearch (l : List DownloadRecord) (pf : String) : Except Unit (Option DownloadRecord) :=
  match fileTier1 l pf with
  | Except.error e => Except.error e
  | Except.ok (some x) => Except.ok (some x)
  | Except.ok none =>
    match fileTier2 l pf with
    | some x => Except.ok (some x)
    | none => Except.ok (fileTier3 l pf)

/-- The viewer's `findEntry()`: empty table → `null`; then the title tiers
(only when `p.title` is truthy), then the file tiers (only when `p.file`
is truthy).  `Except.error ()` models an uncaught exception escaping
`findEntry`. -/
def findEntry (l : List DownloadRecord) (pt pf : String) : Except Unit (Option DownloadRecord) :=
  if l.isEmpty then Except.ok none
  else
    match (if pt != "" then titleSearch l pt else none) with
    | some e => Except.ok (some e)
    | none => if pf != "" then fileSearch l pf else Except.ok none

/-- Observable outcome of the viewer page body (part_001): missing-param
message, an uncaught exception, an immediate redirect to `entry.liens`,
the no-match error banner, or the populated code/YAML panes. -/
inductive ViewerOutcome where
  | missingParam
  | thrown
  | redirect (url : String)
  | noMatch
  | rendered (codeText yamlText : String)
deriving DecidableEq

def codePaneText (e : DownloadRecord) : String :=
  if e.code_py != "" then e.code_py
  else if e.code_path != "" then "Pas de code embarqué. Chemin brut : " ++ e.code_path
  else "Aucun code python embarqué ni path fourni."

def yamlPaneText (e : DownloadRecord) : String :=
  if e.code_yaml != "" then e.code_yaml
  else if e.yaml_path != "" then "Pas de YAML embarqué. Chemin brut : " ++ e.yaml_path
  else "Aucun YAML embarqué ni path fourni."

/-- The viewer flow: missing-parameter guard, `findEntry`, the redirect
guard `entry && (entry.liens || '').toString().trim().length` (which runs
before the no-match banner), then the populate step. -/
def viewerMain (l : List DownloadRecord) (pt pf : String) : ViewerOutcome :=
  if pt = "" ∧ pf = "" then ViewerOutcome.missingParam
  else
    match findEntry l pt pf with
    | Except.error _ => ViewerOutcome.thrown
    | Except.ok none => ViewerOutcome.noMatch
    | Except.ok (some e) =>
      if jsTrim e.liens != "" then ViewerOutcome.redirect e.liens
      else ViewerOutcome.rendered (codePaneText e) (yamlPaneText e)

/-- `filterItems(q)` of assets/main.js: empty query returns the table
itself, else case-insensitive substring search over
`title + ' ' + filename + ' ' + description`. -/
def filterItems (items : List DownloadRecord) (q : String) : List DownloadRecord :=
  if q = "" then items
  else
    let ql := toLowerStr q
    items.filter (fun it =>
      jsIncludes (toLowerStr (it.title ++ " " ++ it.filename ++ " " ++ it.description)) ql)

/-- `(it.category || 'autre').toString().toLowerCase().trim()`. -/
def catNorm (it : DownloadRecord) : String :=
  jsTrim (toLowerStr (if it.category = "" then "autre" else it.category))

/-- The alias folding (`algorithm`/`algo` → `algorithme`,
`biblio` → `bibliographie`) and the
`categories.includes(cat) ? cat : 'autre'` fallback of `render`. -/
def bucketKey (c1 : String) : String :=
  let c2 := if c1 = "algorithm" ∨ c1 = "algo" then "algorithme" else c1
  let c3 := if c2 = "biblio" then "bibliographie" else c2
  if c3 = "algorithme" ∨ c3 = "bibliographie" ∨ c3 = "autre" then c3 else "autre"

/-- The bucket key computed by `render` for one record. -/
def bucketOf (it : DownloadRecord) : String := bucketKey (catNorm it)

/-- The three buckets `grouped` of `render`. -/
structure Grouped where
  algorithme : List DownloadRecord
  bibliographie : List DownloadRecord
  autre : List DownloadRecord
deriving DecidableEq

/-- One `grouped[key].push(it)` step of the `filtered.forEach` loop. -/
def pushBucket (g : Grouped) (it : DownloadRecord) : Grouped :=
  if bucketOf it = "algorithme" then { g with algorithme := g.algorithme ++ [it] }
  else if bucketOf it = "bibliographie" then { g with bibliographie := g.bibliographie ++ [it] }
  else { g with autre := g.autre ++ [it] }

/-- The grouping pass of `render`. -/
def renderGrouped (filtered : List DownloadRecord) : Grouped :=
  filtered.foldl pushBucket ⟨[], [], []⟩

example : bucketOf { category := " Algo " } = "algorithme" := by decide
example : bucketOf { category := "BIBLIO" } = "bibliographie" := by decide
example : bucketOf { category := "" } = "autre" := by decide
example : bucketOf { category := "weird" } = "autre" := by decide
example : filterItems [{ title := "Abc" }] "b" = [{ title := "Abc" }] := by decide
example : filterItems [{ title := "Abc" }] "z" = [] := by decide
example : findEntry [{ filename := "a.zip" }] "" "%" = Except.error () := by decide
example : findEntry [{ title := "T" }] "T" "" = Except.ok (some { title := "T" }) := by decide

/-- The records of one bucket, in source-list order. -/
def bucketFilter (key : String) (l : List DownloadRecord) : List DownloadRecord :=
  l.filter (fun it => bucketOf it == key)

theorem bucketKey_spec (s : String) :
    bucketKey s = (if s = "algorithme" ∨ s = "algorithm" ∨ s = "algo" then "algorithme"
      else if s = "bibliographie" ∨ s = "biblio" then "bibliographie" else "autre") := by
  unfold bucketKey
  by_cases h1 : s = "algorithm" <;> by_cases h2 : s = "algo" <;>
    by_cases h3 : s = "algorithme" <;> by_cases h4 : s = "biblio" <;>
    by_cases h5 : s = "bibliographie" <;> simp_all

theorem bucketOf_cases (it : DownloadRecord) :
    bucketOf it = "algorithme" ∨ bucketOf it = "bibliographie" ∨ bucketOf it = "autre" := by
  unfold bucketOf
  rw [bucketKey_spec]
  split_ifs <;> simp

theorem renderGrouped_foldl (l : List DownloadRecord) : ∀ g : Grouped,
    l.foldl pushBucket g =
      ⟨g.algorithme ++ bucketFilter "algorithme" l,
       g.bibliographie ++ bucketFilter "bibliographie" l,
       g.autre ++ bucketFilter "autre" l⟩ := by
  induction l with
  | nil =>
    intro g
    cases g
    simp [bucketFilter]
  | cons a t ih =>
    intro g
    rw [List.foldl_cons, ih (pushBucket g a)]
    rcases bucketOf_cases a with h | h | h
    · have hp : pushBucket g a = { g with algorithme := g.algorithme ++ [a] } := by
        unfold pushBucket; rw [if_pos h]
      have f1 : bucketFilter "algorithme" (a :: t) = a :: bucketFilter "algorithme" t :=
        List.filter_cons_of_pos (by simp [h])
      have f2 : bucketFilter "bibliographie" (a :: t) = bucketFilter "bibliographie" t :=
        List.filter_cons_of_neg (by simp [h])
      have f3 : bucketFilter "autre" (a :: t) = bucketFilter "autre" t :=
        List.filter_cons_of_neg (by simp [h])
      rw [hp, f1, f2, f3]
      simp
    · have hne : bucketOf a ≠ "algorithme" := by rw [h]; decide
      have hp : pushBucket g a = { g with bibliographie := g.bibliographie ++ [a] } := by
        unfold pushBucket; rw [if_neg hne, if_pos h]
      have f1 : bucketFilter "algorithme" (a :: t) = bucketFilter "algorithme" t :=
        List.filter_cons_of_neg (by simp [h])
      have f2 : bucketFilter "bibliographie" (a :: t) = a :: bucketFilter "bibliographie" t :=
        List.filter_cons_of_pos (by simp [h])
      have f3 : bucketFilter "autre" (a :: t) = bucketFilter "autre" t :=
        List.filter_cons_of_neg (by simp [h])
      rw [hp, f1, f2, f3]
      simp
    · have hne : bucketOf a ≠ "algorithme" := by rw [h]; decide
      have hne2 : bucketOf a ≠ "bibliographie" := by rw [h]; decide
      have hp : pushBucket g a = { g with autre := g.autre ++ [a] } := by
        unfold pushBucket; rw [if_neg hne, if_neg hne2]
      have f1 : bucketFilter "algorithme" (a :: t) = bucketFilter "algorithme" t :=
        List.filter_cons_of_neg (by simp [h])
      have f2 : bucketFilter "bibliographie" (a :: t) = bucketFilter "bibliographie" t :=
        List.filter_cons_of_neg (by simp [h])
      have f3 : bucketFilter "autre" (a :: t) = a :: bucketFilter "autre" t :=
        List.filter_cons_of_pos (by simp [h])
      rw [hp, f1, f2, f3]
      simp

theorem bucket_lengths (l : List DownloadRecord) :
    (bucketFilter "algorithme" l).length + (bucketFilter "bibliographie" l).length +
      (bucketFilter "autre" l).length = l.length := by
  induction l with
  | nil => rfl
  | cons a t ih =>
    rcases bucketOf_cases a with h | h | h
    · rw [show bucketFilter "algorithme" (a :: t) = a :: bucketFilter "algorithme" t from
          List.filter_cons_of_pos (by simp [h]),
        show bucketFilter "bibliographie" (a :: t) = bucketFilter "bibliographie" t from
          List.filter_cons_of_neg (by simp [h]),
        show bucketFilter "autre" (a :: t) = bucketFilter "autre" t from
          List.filter_cons_of_neg (by simp [h])]
      simp only [List.length_cons]
      omega
    · rw [show bucketFilter "algorithme" (a :: t) = bucketFilter "algorithme" t from
          List.filter_cons_of_neg (by simp [h]),
        show bucketFilter "bibliographie" (a :: t) = a :: bucketFilter "bibliographie" t from
          List.filter_cons_of_pos (by simp [h]),
        show bucketFilter "autre" (a :: t) = bucketFilter "autre" t from
          List.filter_cons_of_neg (by simp [h])]
      simp only [List.length_cons]
      omega
    · rw [show bucketFilter "algorithme" (a :: t) = bucketFilter "algorithme" t from
          List.filter_cons_of_neg (by simp [h]),
        show bucketFilter "bibliographie" (a :: t) = bucketFilter "bibliographie" t from
          List.filter_cons_of_neg (by simp [h]),
        show bucketFilter "autre" (a :: t) = a :: bucketFilter "autre" t from
          List.filter_cons_of_pos (by simp [h])]
      simp only [List.length_cons]
      omega

/-- C5: the category grouping is a partition of the input into the three
buckets, in source-list order within each bucket; the bucket key folds the
aliases `algorithm` and `algo` into `algorithme` and `biblio` into
`bibliographie` after lowercasing and trimming, and sends any unknown or
absent category (`catNorm` of an absent category is `autre`) to the
fallback bucket. -/
theorem claim_C5_grouping_partition :
    (∀ l : List DownloadRecord,
       renderGrouped l =
         ⟨bucketFilter "algorithme" l, bucketFilter "bibliographie" l, bucketFilter "autre" l⟩ ∧
       (bucketFilter "algorithme" l).length + (bucketFilter "bibliographie" l).length +
         (bucketFilter "autre" l).length = l.length) ∧
    (∀ it : DownloadRecord,
       bucketOf it =
         (if catNorm it = "algorithme" ∨ catNorm it = "algorithm" ∨ catNorm it = "algo"
          then "algorithme"
          else if catNorm it = "bibliographie" ∨ catNorm it = "biblio"
          then "bibliographie" else "autre")) ∧
    (∀ it : DownloadRecord, it.category = "" → catNorm it = "autre") := by
  refine ⟨fun l => ⟨?_, bucket_lengths l⟩, fun it => ?_, fun it h => ?_⟩
  · rw [renderGrouped, renderGrouped_foldl l ⟨[], [], []⟩]
    simp
  · unfold bucketOf
    exact bucketKey_spec (catNorm it)
  · unfold catNorm
    rw [h]
    decide

/-- C6: filtering with the empty query is the identity on the record
list. -/
theorem claim_C6_filter_empty_identity (items : List DownloadRecord) :
    filterItems items "" = items := by
  unfold filterItems
  rw [if_pos rfl]

/-- C9: the viewer's normalization `norm` (NFKC-normalize, lowercase,
trim, collapse internal whitespace) is idempotent. -/
theorem norm_def (s : String) : norm s = if s = "" then "" else ⟨normL s.data⟩ := rfl

theorem claim_C9_norm_idempotent (s : String) : norm (norm s) = norm s := by
  by_cases h : s = ""
  · rw [h]; rfl
  · have hs : norm s = ⟨normL s.data⟩ := by rw [norm_def, if_neg h]
    rw [hs]
    by_cases h2 : normL s.data = []
    · rw [h2]; rfl
    · have hne : (⟨normL s.data⟩ : String) ≠ "" := fun k => h2 (congrArg String.data k)
      rw [norm_def, if_neg hne]
      exact congrArg String.mk (normL_idem s.data)

theorem processTokens_short {p : List String} (h : p.length < 5) :
    processTokens p = none := by
  unfold processTokens
  rw [if_pos h]

theorem processTokens_nan {p : List String}
    (h : ((p.take 5).any (fun t => jnIsNaN (jsNumber t))) = true) :
    processTokens p = none := by
  unfold processTokens
  by_cases hlen : p.length < 5
  · rw [if_pos hlen]
  · rw [if_neg hlen]
    rcases p with _ | ⟨t0, _ | ⟨t1, _ | ⟨t2, _ | ⟨t3, _ | ⟨t4, rest⟩⟩⟩⟩⟩ <;>
      first
      | (exfalso; apply hlen
         simp only [List.length_cons, List.length_nil]
         omega)
      | (simp only [List.take, List.any_cons, List.any_nil] at h
         simp only [List.any_cons, List.any_nil]
         rw [if_pos (by simpa using h)])

theorem processLine_skip (line : String)
    (h : jsTrim line = "" ∨ jsStartsWith (jsTrim line) "#" = true ∨
         jsStartsWith (jsTrim line) "!" = true ∨
         (splitWsStr (jsTrim line)).length < 5 ∨
         ((splitWsStr (jsTrim line)).take 5).any (fun t => jnIsNaN (jsNumber t)) = true) :
    processLine line = none := by
  unfold processLine processTrimmed
  by_cases hg : (jsTrim line == "" || jsStartsWith (jsTrim line) "!" ||
      jsStartsWith (jsTrim line) "#") = true
  · rw [if_pos hg]
  · rw [if_neg hg]
    rcases h with h1 | h1 | h1 | h1 | h1
    · exact absurd (by simp [h1]) hg
    · exact absurd (by simp [h1]) hg
    · exact absurd (by simp [h1]) hg
    · exact processTokens_short h1
    · exact processTokens_nan h1

/-- C7: a line that is empty after trimming, or begins with `#` or `!`,
or has fewer than five whitespace-separated tokens, or whose first five
tokens do not all parse as numbers, contributes zero rows to both outputs
and leaves the parse of the remaining lines unchanged (the loop `continue`s,
it neither raises nor aborts: the model is a total function). -/
theorem claim_C7_malformed_line_skipped (pre post : List String) (line : String)
    (h : jsTrim line = "" ∨ jsStartsWith (jsTrim line) "#" = true ∨
         jsStartsWith (jsTrim line) "!" = true ∨
         (splitWsStr (jsTrim line)).length < 5 ∨
         ((splitWsStr (jsTrim line)).take 5).any (fun t => jnIsNaN (jsNumber t)) = true) :
    parseLines (pre ++ line :: post) = parseLines (pre ++ post) ∧
    processLine line = none := by
  have hn := processLine_skip line h
  refine ⟨?_, hn⟩
  unfold parseLines
  rw [List.filterMap_append, List.filterMap_append, List.filterMap_cons_none hn]

/-- Witness for C7 at a concrete input: a `#` comment line between two
data lines contributes nothing. -/
theorem claim_C7_witness :
    (jsStartsWith (jsTrim "# hdr") "#" = true) ∧
    parseLines ["1000 0 0 0 0", "# hdr", "2000 1 0 1 0"] =
      parseLines ["1000 0 0 0 0", "2000 1 0 1 0"] ∧
    parseLines ["1000 0 0 0 0", "bad line here x", "2000 1 0 1 0"] =
      parseLines ["1000 0 0 0 0", "2000 1 0 1 0"] := by
  refine ⟨by decide, ?_, ?_⟩
  · exact (claim_C7_malformed_line_skipped ["1000 0 0 0 0"] ["2000 1 0 1 0"] "# hdr"
      (Or.inr (Or.inl (by decide)))).1
  · exact (claim_C7_malformed_line_skipped ["1000 0 0 0 0"] ["2000 1 0 1 0"] "bad line here x"
      (Or.inr (Or.inr (Or.inr (Or.inr (by decide)))))).1

/-- C8: when the parse of the selected file yields zero valid rows, the
convert handler reports the distinguishable "Aucune donnée valide
trouvée." status, generates no download links (not even empty ones), and
leaves the links container hidden. -/
theorem claim_C8_no_valid_rows (fname text : String)
    (h : (parseS2P text).freqs.length = 0) :
    convertClick fname text =
      { status := "Aucune donnée valide trouvée.", links := [], linksVisible := false } := by
  simp only [convertClick]
  rw [if_pos h]

/-- Witness for C8: a file whose single line is not numeric data. -/
theorem claim_C8_witness :
    (parseS2P "abc").freqs.length = 0 ∧
    convertClick "f.s2p" "abc" =
      { status := "Aucune donnée valide trouvée.", links := [], linksVisible := false } :=
  ⟨by decide, claim_C8_no_valid_rows "f.s2p" "abc" (by decide)⟩

/-- C1 (converter zero-magnitude handling): the repository's embedded
reference Python uses the −100 dB sentinel (`… if s11_mag > 0 else -100`),
but the converter actually shipped in the page, `parseS2P`, computes
`20*Math.log10(Math.hypot(0,0))` with no guard.  At the failing input line
"1000 0 0 0 0" no exception is raised, yet the value pushed is the exact
`-Infinity` (`DbVal.negInf`), and the generated `.dat` rows render as
"1000\t-Infinity" — not the claimed sentinel row "1000\t-100.00". -/
theorem claim_C1_zero_magnitude_bug :
    (parseS2P "1000 0 0 0 0").s11 = [DbVal.negInf] ∧
    (parseS2P "1000 0 0 0 0").s21 = [DbVal.negInf] ∧
    (convertClick "a.s2p" "1000 0 0 0 0").links.map
        (fun lk => (lk.name, lk.file.rows.map (fun r => rowRendered r.1 r.2))) =
      [("a_S11.dat", [some "1000\t-Infinity"]), ("a_S21.dat", [some "1000\t-Infinity"])] ∧
    dbToFixed2 DbVal.negInf = some "-Infinity" := by
  exact ⟨by decide, by decide, by decide, by decide⟩

theorem findEntry_step (l : List DownloadRecord) (pt pf : String) (h : l.isEmpty = false) :
    findEntry l pt pf =
      match (if pt != "" then titleSearch l pt else none) with
      | some e => Except.ok (some e)
      | none => if pf != "" then fileSearch l pf else Except.ok none := by
  unfold findEntry
  rw [h, if_neg Bool.false_ne_true]

theorem findEntry_no_queries (l : List DownloadRecord) : findEntry l "" "" = Except.ok none := by
  by_cases h : l.isEmpty
  · unfold findEntry
    rw [if_pos h]
  · rw [findEntry_step l "" "" (by simpa using h)]
    rfl

theorem jsIncludes_empty_needle (s : String) : jsIncludes s "" = true := by
  unfold jsIncludes
  rcases hd : s.data with _ | ⟨c, t⟩
  · rfl
  · rfl

/-- C2 counterexample: one record with filename "a.zip", no title query,
and the malformed file query "%" (whose decode fails): `findEntry` throws
(`Except.error`), so the matcher does *not* return normally on every
malformed query — the file branch's `decodeURIComponent` is outside any
try/catch. -/
theorem claim_C2_counterexample :
    jsDecodeURIComponent "%" = none ∧
    findEntry [{ filename := "a.zip" }] "" "%" = Except.error () := by
  exact ⟨by decide, by decide⟩

/-- C2 amended: for a *title* query the matcher never throws — a decode
failure only skips the decoded-equality tier and the exact / normalized /
substring tiers are still tried — but for a *file* query a decode failure
propagates an exception as soon as the exact tier examines a record whose
filename differs from the raw query (in particular whenever the first
record's filename differs). -/
theorem claim_C2_amended :
    (∀ (l : List DownloadRecord) (pt : String),
       jsDecodeURIComponent pt = none →
       findEntry l pt "" =
         Except.ok ((titleTier1 l pt) <|> ((titleTier3 l pt) <|> (titleTier4 l pt)))) ∧
    (∀ (d : DownloadRecord) (rest : List DownloadRecord) (pf : String),
       jsDecodeURIComponent pf = none → d.filename ≠ pf →
       findEntry (d :: rest) "" pf = Except.error ()) := by
  constructor
  · intro l pt hdec
    have hpt : pt ≠ "" := by
      intro k
      rw [k] at hdec
      exact absurd hdec (by decide)
    by_cases hl : l.isEmpty
    · have hnil : l = [] := List.isEmpty_iff.mp hl
      subst hnil
      rfl
    · rw [findEntry_step l pt "" (by simpa using hl)]
      have ht2 : titleTier2 l pt = none := by
        unfold titleTier2
        rw [hdec]
      have hts : titleSearch l pt =
          ((titleTier1 l pt) <|> ((titleTier3 l pt) <|> (titleTier4 l pt))) := by
        unfold titleSearch
        rw [ht2]
        cases titleTier1 l pt <;> simp
      rw [if_pos (bne_iff_ne.mpr hpt), hts]
      cases ((titleTier1 l pt) <|> ((titleTier3 l pt) <|> (titleTier4 l pt))) with
      | none => rfl
      | some e => rfl
  · intro d rest pf hdec hne
    have hpf : pf ≠ "" := by
      intro k
      rw [k] at hdec
      exact absurd hdec (by decide)
    have hf1 : fileTier1 (d :: rest) pf = Except.error () := by
      unfold fileTier1 findThrow
      rw [if_neg (by simp [hne]), hdec]
    have hfs : fileSearch (d :: rest) pf = Except.error () := by
      unfold fileSearch
      rw [hf1]
    rw [findEntry_step (d :: rest) "" pf rfl, if_pos (bne_iff_ne.mpr hpf)]
    exact hfs

/-- Witness for the amended C2 at concrete inputs: a malformed title query
returns normally with the decoded tier skipped, and the same malformed
string as a file query throws. -/
theorem claim_C2_amended_witness :
    jsDecodeURIComponent "%" = none ∧
    findEntry [{ title := "x" }] "%" "" = Except.ok none ∧
    findEntry [{ filename := "a.zip" }] "" "%" = Except.error () := by
  refine ⟨by decide, ?_, ?_⟩
  · have h := claim_C2_amended.1 [{ title := "x" }] "%" (by decide)
    rw [h]
    decide
  · exact claim_C2_amended.2 { filename := "a.zip" } [] "%" (by decide) (by decide)

/-- C3 counterexample: the claim quantifies over *every* title query, but
the matcher guards the title tiers with the truthiness test `if(p.title)`,
so the reachable empty-string title query (`?title=&file=…`) is treated as
absent: with a record whose title is exactly the query `""`, `findEntry`
reports no match instead of returning that record. -/
theorem claim_C3_counterexample :
    ({ title := "" } : DownloadRecord).title = "" ∧
    findEntry [{ title := "" }] "" "zzz" = Except.ok none := by
  exact ⟨rfl, by decide⟩

/-- C3 amended: for every record list and every *non-empty* title query
(an empty `p.title` is falsy and skips the title tiers), if some record's
title equals the query exactly, then the matcher returns
`l.find? (fun d => d.title == pt)` — the first such record in list order —
regardless of the other tiers and of the file query. -/
theorem claim_C3_amended (l : List DownloadRecord) (pt pf : String)
    (hpt : pt ≠ "") (hex : ∃ r ∈ l, r.title = pt) :
    findEntry l pt pf = Except.ok (l.find? (fun d => d.title == pt)) ∧
    ∃ r, l.find? (fun d => d.title == pt) = some r ∧ r.title = pt := by
  have hsome : (l.find? (fun d => d.title == pt)).isSome := by
    rw [List.find?_isSome]
    rcases hex with ⟨r, hr, he⟩
    exact ⟨r, hr, by simp [he]⟩
  rcases ho : l.find? (fun d => d.title == pt) with _ | r
  · rw [ho] at hsome
    simp at hsome
  · have hne : l.isEmpty = false := by
      rcases l with _ | _
      · simp [List.find?] at ho
      · exact List.isEmpty_cons
    have hts : titleSearch l pt = some r := by
      unfold titleSearch titleTier1
      rw [ho]
      rfl
    rw [findEntry_step l pt pf hne, if_pos (bne_iff_ne.mpr hpt), hts, ho]
    refine ⟨rfl, r, rfl, ?_⟩
    have hp := List.find?_some ho
    simpa using hp

/-- Witness for the amended C3: the exact-title record in second position
is returned even though the first record would match the substring tier. -/
theorem claim_C3_amended_witness :
    findEntry [{ title := "Tool" }, { title := "T" }] "T" "" =
      Except.ok (some { title := "T" }) := by
  have h := claim_C3_amended [{ title := "Tool" }, { title := "T" }] "T" ""
    (by decide) ⟨{ title := "T" }, by decide, rfl⟩
  rw [h.1]
  decide

/-- C4: whenever the matcher returns a record whose `liens` field is
non-empty after trimming, the viewer navigates to that field's value and
the populate step is never reached: the outcome is the redirect, never the
rendered code/YAML panes. -/
theorem claim_C4_redirect (l : List DownloadRecord) (pt pf : String) (e : DownloadRecord)
    (hfe : findEntry l pt pf = Except.ok (some e))
    (hliens : jsTrim e.liens ≠ "") :
    viewerMain l pt pf = ViewerOutcome.redirect e.liens ∧
    ∀ c y, viewerMain l pt pf ≠ ViewerOutcome.rendered c y := by
  have hnp : ¬ (pt = "" ∧ pf = "") := by
    rintro ⟨h1, h2⟩
    subst h1
    subst h2
    rw [findEntry_no_queries l] at hfe
    cases hfe
  have hred : viewerMain l pt pf =
      if (jsTrim e.liens != "") = true then ViewerOutcome.redirect e.liens
      else ViewerOutcome.rendered (codePaneText e) (yamlPaneText e) := by
    unfold viewerMain
    rw [if_neg hnp, hfe]
  rw [hred, if_pos (bne_iff_ne.mpr hliens)]
  exact ⟨rfl, fun c y k => by cases k⟩

/-- Witness for C4: a matched record with `liens := "autre.html"` yields
the redirect outcome. -/
theorem claim_C4_redirect_witness :
    viewerMain [{ title := "t", liens := "autre.html" }] "t" "" =
      ViewerOutcome.redirect "autre.html" := by
  have h := claim_C4_redirect [{ title := "t", liens := "autre.html" }] "t" ""
    { title := "t", liens := "autre.html" } (by decide) (by decide)
  exact h.1

/-- C10 (implicit behavior): a title query that is truthy but normalizes
to the empty string (e.g. whitespace only) and fails tiers 1–3 is matched
by the normalized-substring tier against *every* record, because
`includes('')` is always true — so the matcher returns the first record of
a non-empty list instead of reporting no match. -/
theorem claim_C10_blank_normalized_query (r : DownloadRecord) (rest : List DownloadRecord)
    (pt pf : String) (hpt : pt ≠ "") (hn : norm pt = "")
    (h1 : titleTier1 (r :: rest) pt = none)
    (h2 : titleTier2 (r :: rest) pt = none)
    (h3 : titleTier3 (r :: rest) pt = none) :
    findEntry (r :: rest) pt pf = Except.ok (some r) := by
  have h4 : titleTier4 (r :: rest) pt = some r := by
    unfold titleTier4
    apply List.find?_cons_of_pos
    rw [hn, jsIncludes_empty_needle]
  have hts : titleSearch (r :: rest) pt = some r := by
    unfold titleSearch
    rw [h1, h2, h3, h4]
    rfl
  rw [findEntry_step (r :: rest) pt pf rfl, if_pos (bne_iff_ne.mpr hpt), hts]

/-- Witness for C10: the single-space query " " matches the record titled
"abc" through the substring tier. -/
theorem claim_C10_witness :
    norm " " = "" ∧
    findEntry [{ title := "abc" }] " " "" = Except.ok (some { title := "abc" }) := by
  refine ⟨by decide, ?_⟩
  exact claim_C10_blank_normalized_query { title := "abc" } [] " " ""
    (by decide) (by decide) (by decide) (by decide) (by decide)

/-- Witness for C5 at concrete records: a grouped list with one alias of
each bucket, and the absent-category fallback. -/
theorem claim_C5_grouping_partition_witness :
    renderGrouped [{ category := "Algo " }, { category := "biblio" }, { category := "x" }] =
      ⟨bucketFilter "algorithme" [{ category := "Algo " }, { category := "biblio" }, { category := "x" }],
       bucketFilter "bibliographie" [{ category := "Algo " }, { category := "biblio" }, { category := "x" }],
       bucketFilter "autre" [{ category := "Algo " }, { category := "biblio" }, { category := "x" }]⟩ ∧
    catNorm { category := "" } = "autre" :=
  ⟨(claim_C5_grouping_partition.1
      [{ category := "Algo " }, { category := "biblio" }, { category := "x" }]).1,
   claim_C5_grouping_partition.2.2 { category := "" } rfl⟩
